import Mathlib

/-!
Verification of the `prrompt` git post-commit hook (canonical implementation:
the `main.go` variant defining `processCommit`, `analyzeCommit`,
`extractPrompts`, `cleanup` and the four `get…` configuration readers; the
test file builds against exactly these symbols).

The program shells out to `git` for every repository operation.  We embed it
shallowly over an oracle `GitEnv` that decides, for each argument list passed
to `git`, whether the invocation succeeds and what (already combined) output
it produces.  Each orchestrator function returns its result together with the
trace of `git` invocations it issued, in order; `runGit` trims the combined
output exactly as the Go `runGit` does with `strings.TrimSpace`.

Repository effects are given meaning by a small-step interpreter `applyCmd`
over `RepoState` (branch list, current branch, index, working-tree delta and
the extraction commit, if made), with a failed sub-command having no effect:
the program's recovery granularity is the whole sub-command.
-/

namespace Prrompt

/-- One shelled-out git invocation: the argument list passed to `git`. -/
abbrev Cmd := List String

/-- `strings.TrimSpace`: drop whitespace from both ends.  Defined
structurally over the character list so that concrete instances reduce in the
kernel; on the ASCII data the program handles this agrees with Go's Unicode
notion of whitespace. -/
def goTrim (s : String) : String :=
  ⟨((s.data.dropWhile Char.isWhitespace).reverse.dropWhile Char.isWhitespace).reverse⟩

/-- Worker for `goSplitCh`: split at every occurrence of the separator,
accumulating the current field in reverse. -/
def splitChAux (sep : Char) : List Char → List Char → List String
  | [], acc => [⟨acc.reverse⟩]
  | c :: rest, acc =>
    if c = sep then ⟨acc.reverse⟩ :: splitChAux sep rest []
    else splitChAux sep rest (c :: acc)

/-- `strings.Split` for a one-character separator (the program splits on
`"\n"` and on `","`): the list of fields between separator occurrences,
empty fields included, never empty as a list. -/
def goSplitCh (s : String) (sep : Char) : List String := splitChAux sep s.data []

/-- `strings.HasPrefix s pre`, structurally over the character lists. -/
def goHasPfx (s pre : String) : Bool := pre.data.isPrefixOf s.data

/-- `strings.HasSuffix s suf`. -/
def goHasSuf (s suf : String) : Bool := suf.data.reverse.isPrefixOf s.data.reverse

/-- `strings.TrimPrefix`: remove the prefix when present, else return the
string unchanged. -/
def goTrimPfxStr (s pre : String) : String :=
  if goHasPfx s pre then ⟨s.data.drop pre.data.length⟩ else s

/-- `strings.TrimSuffix`: remove the suffix when present, else return the
string unchanged. -/
def goTrimSufStr (s suf : String) : String :=
  if goHasSuf s suf then ⟨s.data.take (s.data.length - suf.data.length)⟩ else s

/-- Go string slicing `s[:n]` on its defined domain: the first `n` bytes.
Commit identifiers are ASCII hex, so byte indexing and character indexing
agree. -/
def goTake (s : String) (n : Nat) : String := ⟨s.data.take n⟩

/-- Oracle for the external git process: per argument list, whether the
invocation exits successfully and what combined output it prints.  Within one
hook run it is fixed (the design assumes no concurrent mutation of the
repository during extraction). -/
structure GitEnv where
  ok : Cmd → Bool
  out : Cmd → String

/-- `runGit` mirrors the Go helper: run `git args…`, return the
whitespace-trimmed combined output and the success flag. -/
def runGit (env : GitEnv) (args : Cmd) : String × Bool :=
  (goTrim (env.out args), env.ok args)

/-- Default commit-message prefix (`defaultCommitPrefix` in the source). -/
def defaultCommitPfx : String := "prompt"

/-- Default branch-name prefix (`defaultBranchPrefix` in the source). -/
def defaultBranchPfx : String := "skill-update"

/-- Default base branch (`defaultBaseBranch` in the source). -/
def defaultBaseBranch : String := "main"

/-- Default prompt-path patterns (`defaultPromptPatterns` in the source). -/
def defaultPromptPatterns : List String := [".claude/skills/", "prompts/"]

/-- Argument list of `git rev-parse --abbrev-ref HEAD`. -/
def revParseHead : Cmd := ["rev-parse", "--abbrev-ref", "HEAD"]

/-- Argument list of `git config --get prrompt.commitPrefix`. -/
def cfgCommitPfxCmd : Cmd := ["config", "--get", "prrompt.commitPrefix"]

/-- Argument list of `git config --get prrompt.branchPrefix`. -/
def cfgBranchPfxCmd : Cmd := ["config", "--get", "prrompt.branchPrefix"]

/-- Argument list of `git config --get prrompt.baseBranch`. -/
def cfgBaseBranchCmd : Cmd := ["config", "--get", "prrompt.baseBranch"]

/-- Argument list of `git config --get prrompt.promptPatterns`. -/
def cfgPatternsCmd : Cmd := ["config", "--get", "prrompt.promptPatterns"]

/-- Argument list of `git config --get remote.origin.url`. -/
def cfgRemoteURLCmd : Cmd := ["config", "--get", "remote.origin.url"]

/-- Argument list of `git log --format=%B -n 1 <sha>`. -/
def logCmd (sha : String) : Cmd := ["log", "--format=%B", "-n", "1", sha]

/-- Argument list of `git diff-tree --no-commit-id --name-only -r <sha>`. -/
def diffTreeCmd (sha : String) : Cmd :=
  ["diff-tree", "--no-commit-id", "--name-only", "-r", sha]

/-- Argument list of `git checkout -b <branch> <base>`. -/
def checkoutNewCmd (branch base : String) : Cmd := ["checkout", "-b", branch, base]

/-- Argument list of `git cherry-pick <sha> --no-commit`. -/
def cherryPickCmd (sha : String) : Cmd := ["cherry-pick", sha, "--no-commit"]

/-- Argument list of `git restore --staged <file>`. -/
def unstageCmd (file : String) : Cmd := ["restore", "--staged", file]

/-- Argument list of `git commit -m <msg>`. -/
def commitCmd (msg : String) : Cmd := ["commit", "-m", msg]

/-- Argument list of `git push origin <branch> -u`. -/
def pushCmd (branch : String) : Cmd := ["push", "origin", branch, "-u"]

/-- Argument list of `git checkout -f <branch>`. -/
def checkoutForceCmd (branch : String) : Cmd := ["checkout", "-f", branch]

/-- Argument list of `git checkout <branch>`. -/
def checkoutCmd (branch : String) : Cmd := ["checkout", branch]

/-- Argument list of `git branch -D <branch>`. -/
def deleteBranchCmd (branch : String) : Cmd := ["branch", "-D", branch]

/-- Argument list of `git cherry-pick --abort`. -/
def abortCherryPickCmd : Cmd := ["cherry-pick", "--abort"]

/-- `getCommitPrefix` from the source: read `prrompt.commitPrefix`, falling
back to the default when the read fails or yields the empty string.  The
single `git config --get` read it issues is `cfgCommitPfxCmd`; call sites
record it in their trace. -/
def getCommitPfx (env : GitEnv) : String :=
  let value := (runGit env cfgCommitPfxCmd).1
  if !(runGit env cfgCommitPfxCmd).2 then defaultCommitPfx
  else if value = "" then defaultCommitPfx
  else value

/-- `getBranchPrefix` from the source, reading `prrompt.branchPrefix`. -/
def getBranchPfx (env : GitEnv) : String :=
  let value := (runGit env cfgBranchPfxCmd).1
  if !(runGit env cfgBranchPfxCmd).2 then defaultBranchPfx
  else if value = "" then defaultBranchPfx
  else value

/-- `getBaseBranch` from the source, reading `prrompt.baseBranch`. -/
def getBaseBranch (env : GitEnv) : String :=
  let value := (runGit env cfgBaseBranchCmd).1
  if !(runGit env cfgBaseBranchCmd).2 then defaultBaseBranch
  else if value = "" then defaultBaseBranch
  else value

/-- The loop body of `getPromptPatterns`: trim every entry and keep the
non-empty ones, preserving order. -/
def collectPatterns : List String → List String
  | [] => []
  | p :: rest =>
    let q := goTrim p
    if q ≠ "" then q :: collectPatterns rest else collectPatterns rest

/-- `getPromptPatterns` from the source: read `prrompt.promptPatterns`; on a
failed read or empty value use the defaults; otherwise split on commas, trim
each entry and drop empties, falling back to the defaults if nothing
survives. -/
def getPromptPatterns (env : GitEnv) : List String :=
  let value := (runGit env cfgPatternsCmd).1
  if !(runGit env cfgPatternsCmd).2 || value = "" then defaultPromptPatterns
  else
    let result := collectPatterns (goSplitCh value ',')
    if result.length = 0 then defaultPromptPatterns else result

/-- `isPromptFile` from the source: a path is a prompt file iff it starts
with at least one configured pattern (the Go loop with `strings.HasPrefix`
returns on the first match; `List.any` is the same test).  It re-reads the
configuration on every call, issuing one `cfgPatternsCmd` read. -/
def isPromptFile (env : GitEnv) (path : String) : Bool :=
  (getPromptPatterns env).any fun pattern => goHasPfx path pattern

/-- `CommitInfo` from the source. -/
structure CommitInfo where
  sha : String
  message : String
  promptFiles : List String
  otherFiles : List String
  isMixed : Bool
  sourceBranch : String
deriving DecidableEq, Repr

/-- The classification loop of `analyzeCommit`: trim each entry of the split
diff output, skip blanks, and route the rest by `isPromptFile`, preserving
order in both outputs.  The third component is the trace of configuration
reads issued (one per classified path, because `isPromptFile` re-reads the
patterns). -/
def classifyFiles (env : GitEnv) : List String → List String × List String × List Cmd
  | [] => ([], [], [])
  | file :: rest =>
    let f := goTrim file
    if f = "" then classifyFiles env rest
    else
      let r := classifyFiles env rest
      if isPromptFile env f then (f :: r.1, r.2.1, cfgPatternsCmd :: r.2.2)
      else (r.1, f :: r.2.1, cfgPatternsCmd :: r.2.2)

/-- `analyzeCommit` from the source: read the commit message, the current
branch and the changed-file list (three reads, each failure aborting with an
analysis error), then classify the files; `isMixed` is derived as
`otherFiles` being non-empty. -/
def analyzeCommit (env : GitEnv) (sha : String) : Except String CommitInfo × List Cmd :=
  let msg := (runGit env (logCmd sha)).1
  if !(runGit env (logCmd sha)).2 then
    (.error "failed to get commit message", [logCmd sha])
  else
    let branch := (runGit env revParseHead).1
    if !(runGit env revParseHead).2 then
      (.error "failed to get current branch", [logCmd sha, revParseHead])
    else
      let files := (runGit env (diffTreeCmd sha)).1
      if !(runGit env (diffTreeCmd sha)).2 then
        (.error "failed to get changed files", [logCmd sha, revParseHead, diffTreeCmd sha])
      else
        let c := classifyFiles env (goSplitCh files '\n')
        (.ok { sha := sha, message := msg, promptFiles := c.1, otherFiles := c.2.1,
               isMixed := !c.2.1.isEmpty, sourceBranch := branch },
         [logCmd sha, revParseHead, diffTreeCmd sha] ++ c.2.2)

/-- Outcome of one run: a normal return value (`ok`, or `error` mirroring the
Go `error` return) or a Go runtime panic. -/
inductive RunOutcome where
  | ok : RunOutcome
  | error : String → RunOutcome
  | panicked : String → RunOutcome
deriving DecidableEq, Repr

/-- Go string slicing `s[:n]` with its bounds check: defined (the first `n`
bytes) when `n ≤ len(s)`, a runtime panic otherwise. -/
def goSlice (s : String) (n : Nat) : Option String :=
  if n ≤ s.length then some (goTake s n) else none

/-- Branch name built in `extractPrompts`:
`fmt.Sprintf("%s/%s", getBranchPrefix(), shortSHA)`. -/
def promptBranchName (env : GitEnv) (shortSHA : String) : String :=
  getBranchPfx env ++ "/" ++ shortSHA

/-- Commit message built in `extractPrompts`: `"[" + commitPrefix + "] "`
followed by the original message, and, exactly when the commit is mixed, two
newlines and the `Extracted from <sourceBranch> (<shortSHA>)` suffix. -/
def extractionMsg (env : GitEnv) (info : CommitInfo) (shortSHA : String) : String :=
  let base := "[" ++ getCommitPfx env ++ "] " ++ info.message
  if info.isMixed then
    base ++ "\n\nExtracted from " ++ info.sourceBranch ++ " (" ++ shortSHA ++ ")"
  else base

/-- `cleanup` from the source: abort any in-progress cherry-pick, switch back
to the original branch, force-delete the just-created branch.  All three
results are discarded in Go, so all three invocations always appear, in this
order, whatever the oracle answers for each. -/
def cleanupCmds (originalBranch skillBranch : String) : List Cmd :=
  [abortCherryPickCmd, checkoutCmd originalBranch, deleteBranchCmd skillBranch]

/-- `generatePRURL` from the source: read the origin URL (falling back to an
instruction string on failure), parse a GitHub SSH or HTTPS remote, and build
the compare URL from the configured base branch.  The Go code guards the
HTTPS branch with `strings.Contains` and then checks the split produced
exactly two parts; matching the split against a two-element list is the same
test, since a separator-free string splits into one part. -/
def generatePRURL (env : GitEnv) (branch : String) : String × List Cmd :=
  let remoteURL := (runGit env cfgRemoteURLCmd).1
  if !(runGit env cfgRemoteURLCmd).2 then
    ("Create PR manually for branch: " ++ branch, [cfgRemoteURLCmd])
  else
    let repoPath :=
      if goHasPfx remoteURL "git@github.com:" then
        goTrimSufStr (goTrimPfxStr remoteURL "git@github.com:") ".git"
      else
        match remoteURL.splitOn "github.com/" with
        | [_, p] => goTrimSufStr p ".git"
        | _ => ""
    if repoPath = "" then ("Create PR manually for branch: " ++ branch, [cfgRemoteURLCmd])
    else
      ("https://github.com/" ++ repoPath ++ "/compare/" ++ getBaseBranch env ++
         "..." ++ branch ++ "?expand=1",
       [cfgRemoteURLCmd, cfgBaseBranchCmd])

/-- `extractPrompts` from the source, as a trace-producing function: compute
the 7-byte short SHA (a Go slice that panics on shorter identifiers, before
any git invocation), create the extraction branch from the base branch,
cherry-pick without committing (failure runs `cleanup` and errors), unstage
every other-file when mixed (results ignored), commit the built message
(failure runs `cleanup` and errors), push best-effort, force-switch back to
the source branch (failure is fatal), and compute the PR URL. -/
def extractPrompts (env : GitEnv) (info : CommitInfo) : RunOutcome × List Cmd :=
  match goSlice info.sha 7 with
  | none => (.panicked "runtime error: slice bounds out of range", [])
  | some shortSHA =>
    let promptBranch := promptBranchName env shortSHA
    let co := checkoutNewCmd promptBranch (getBaseBranch env)
    let t0 : List Cmd := [cfgBranchPfxCmd, cfgBaseBranchCmd, co]
    if !(env.ok co) then (.error "failed to create branch", t0)
    else
      let cp := cherryPickCmd info.sha
      if !(env.ok cp) then
        (.error "failed to cherry-pick", t0 ++ [cp] ++ cleanupCmds info.sourceBranch promptBranch)
      else
        let unstage := if info.isMixed then info.otherFiles.map unstageCmd else []
        let cm := commitCmd (extractionMsg env info shortSHA)
        let t1 := t0 ++ [cp] ++ unstage ++ [cfgCommitPfxCmd, cm]
        if !(env.ok cm) then
          (.error "failed to commit", t1 ++ cleanupCmds info.sourceBranch promptBranch)
        else
          let back := checkoutForceCmd info.sourceBranch
          let t2 := t1 ++ [pushCmd promptBranch, back]
          if !(env.ok back) then (.error "failed to return to original branch", t2)
          else (.ok, t2 ++ (generatePRURL env promptBranch).2)

/-- `processCommit` from the source: read the current branch; when the read
succeeds and the branch starts with `branchPrefix + "/"`, return immediately
(the recursion guard; the configuration read happens only then, by Go's
short-circuit `&&`).  Otherwise analyze the commit (errors wrapped and
propagated), return silently when no prompt files were classified, and run
the extraction otherwise, wrapping its error. -/
def processCommit (env : GitEnv) (commitSHA : String) : RunOutcome × List Cmd :=
  let currentBranch := (runGit env revParseHead).1
  let okRev := (runGit env revParseHead).2
  if okRev && goHasPfx currentBranch (getBranchPfx env ++ "/") then
    (.ok, [revParseHead, cfgBranchPfxCmd])
  else
    let guardTrace := if okRev then [revParseHead, cfgBranchPfxCmd] else [revParseHead]
    match analyzeCommit env commitSHA with
    | (.error e, t) => (.error ("error analyzing commit: " ++ e), guardTrace ++ t)
    | (.ok ci, t) =>
      if ci.promptFiles.length = 0 then (.ok, guardTrace ++ t)
      else
        match extractPrompts env ci with
        | (.ok, t2) => (.ok, guardTrace ++ t ++ t2)
        | (.error e, t2) => (.error ("error extracting prompts: " ++ e), guardTrace ++ t ++ t2)
        | (.panicked m, t2) => (.panicked m, guardTrace ++ t ++ t2)

/-- `main` from the source, for a given argument vector (program name
first): with no commit argument print usage and exit 1; otherwise exit 0 when
`processCommit` returns nil and 1 when it returns an error (a Go panic
terminates the process abnormally, exit code 2). -/
def mainRun (env : GitEnv) (argv : List String) : Nat × List Cmd :=
  match argv with
  | _ :: sha :: _ =>
    (match processCommit env sha with
     | (.ok, t) => (0, t)
     | (.error _, t) => (1, t)
     | (.panicked _, t) => (2, t))
  | _ => (1, [])

/-- Whether a git invocation can mutate the repository (branches, index,
working tree or remote).  `config --get`, `rev-parse`, `log` and `diff-tree`
are pure reads; every other command the program issues is conservatively
counted as mutating. -/
def mutates : Cmd → Bool
  | "config" :: _ => false
  | "rev-parse" :: _ => false
  | "log" :: _ => false
  | "diff-tree" :: _ => false
  | _ => true

/-- Abstraction of the repository state the program touches: the local branch
list, the current branch, the staged paths and working-tree delta introduced
by the cherry-pick (relative to the base branch), the extraction commit once
made (its file list and message), and a snapshot of the working-tree delta at
the moment of that commit. -/
structure RepoState where
  branches : List String
  current : String
  staged : List String
  wtChanges : List String
  committed : Option (List String × String)
  wtAtCommit : Option (List String)
deriving DecidableEq, Repr

/-- Meaning of one git invocation on the repository abstraction.  A failed
invocation (per the oracle) has no effect: the program's recovery granularity
is the whole sub-command.  `diffOf` gives the paths a commit changed, so a
no-commit cherry-pick stages that commit's delta; `restore --staged` drops a
path from the index only; a plain `checkout` carries uncommitted state over,
while `checkout -b`/`checkout -f` start from, or reset to, a committed tree
and so clear the delta.  Reads and `push` leave the local state unchanged. -/
def applyCmd (env : GitEnv) (diffOf : String → List String) (st : RepoState)
    (c : Cmd) : RepoState :=
  if env.ok c = false then st
  else
    match c with
    | ["checkout", "-b", b, _base] =>
      { st with branches := b :: st.branches, current := b, staged := [], wtChanges := [] }
    | ["checkout", "-f", b] =>
      { st with current := b, staged := [], wtChanges := [] }
    | ["checkout", b] => { st with current := b }
    | ["cherry-pick", "--abort"] => { st with staged := [], wtChanges := [] }
    | ["cherry-pick", sha, "--no-commit"] =>
      { st with staged := diffOf sha, wtChanges := diffOf sha }
    | ["restore", "--staged", f] => { st with staged := st.staged.filter (· ≠ f) }
    | ["commit", "-m", msg] =>
      { st with committed := some (st.staged, msg), wtAtCommit := some st.wtChanges,
                staged := [] }
    | ["branch", "-D", b] => { st with branches := st.branches.filter (· ≠ b) }
    | _ => st

/-- Run a whole trace of git invocations from a starting state. -/
def runTrace (env : GitEnv) (diffOf : String → List String) (st : RepoState)
    (t : List Cmd) : RepoState :=
  t.foldl (applyCmd env diffOf) st

theorem applyCmd_read (env : GitEnv) (d : String → List String) (st : RepoState)
    (c : Cmd) (h : mutates c = false) : applyCmd env d st c = st := by
  unfold applyCmd
  split
  · rfl
  · split <;> first | rfl | simp_all [mutates]

theorem applyCmd_fail (env : GitEnv) (d : String → List String) (st : RepoState)
    (c : Cmd) (h : env.ok c = false) : applyCmd env d st c = st := by
  simp [applyCmd, h]

theorem applyCmd_cfg (env : GitEnv) (d : String → List String) (st : RepoState)
    (k : String) : applyCmd env d st ["config", "--get", k] = st := by
  simp [applyCmd]

theorem applyCmd_checkoutNew (env : GitEnv) (d : String → List String) (st : RepoState)
    (b base : String) (h : env.ok (checkoutNewCmd b base) = true) :
    applyCmd env d st (checkoutNewCmd b base) =
      { st with branches := b :: st.branches, current := b, staged := [], wtChanges := [] } := by
  simp only [checkoutNewCmd] at h
  simp [applyCmd, checkoutNewCmd, h]

theorem applyCmd_cherryPick (env : GitEnv) (d : String → List String) (st : RepoState)
    (sha : String) (h : env.ok (cherryPickCmd sha) = true) :
    applyCmd env d st (cherryPickCmd sha) =
      { st with staged := d sha, wtChanges := d sha } := by
  simp only [cherryPickCmd] at h
  simp [applyCmd, cherryPickCmd, h]

theorem applyCmd_unstage (env : GitEnv) (d : String → List String) (st : RepoState)
    (f : String) :
    applyCmd env d st (unstageCmd f) =
      { st with staged := if env.ok (unstageCmd f) then st.staged.filter (· ≠ f) else st.staged } := by
  by_cases h : env.ok (unstageCmd f) <;>
    · simp only [unstageCmd] at h ⊢
      simp [applyCmd, h]

theorem applyCmd_commit (env : GitEnv) (d : String → List String) (st : RepoState)
    (m : String) (h : env.ok (commitCmd m) = true) :
    applyCmd env d st (commitCmd m) =
      { st with committed := some (st.staged, m), wtAtCommit := some st.wtChanges,
                staged := [] } := by
  simp only [commitCmd] at h
  simp [applyCmd, commitCmd, h]

theorem applyCmd_push (env : GitEnv) (d : String → List String) (st : RepoState)
    (b : String) : applyCmd env d st (pushCmd b) = st := by
  by_cases h : env.ok (pushCmd b) <;>
    · simp only [pushCmd] at h ⊢
      simp [applyCmd, h]

theorem applyCmd_checkoutForce (env : GitEnv) (d : String → List String) (st : RepoState)
    (b : String) (h : env.ok (checkoutForceCmd b) = true) :
    applyCmd env d st (checkoutForceCmd b) =
      { st with current := b, staged := [], wtChanges := [] } := by
  simp only [checkoutForceCmd] at h
  simp [applyCmd, checkoutForceCmd, h]

theorem applyCmd_checkout (env : GitEnv) (d : String → List String) (st : RepoState)
    (b : String) :
    applyCmd env d st (checkoutCmd b) =
      { st with current := if env.ok (checkoutCmd b) then b else st.current } := by
  by_cases h : env.ok (checkoutCmd b) <;>
    · simp only [checkoutCmd] at h ⊢
      simp [applyCmd, h]

theorem applyCmd_abort (env : GitEnv) (d : String → List String) (st : RepoState) :
    applyCmd env d st abortCherryPickCmd =
      { st with staged := if env.ok abortCherryPickCmd then [] else st.staged,
                wtChanges := if env.ok abortCherryPickCmd then [] else st.wtChanges } := by
  by_cases h : env.ok abortCherryPickCmd <;>
    · simp only [abortCherryPickCmd] at h ⊢
      simp [applyCmd, h]

theorem applyCmd_deleteBranch (env : GitEnv) (d : String → List String) (st : RepoState)
    (b : String) :
    applyCmd env d st (deleteBranchCmd b) =
      { st with branches :=
          if env.ok (deleteBranchCmd b) then st.branches.filter (· ≠ b) else st.branches } := by
  by_cases h : env.ok (deleteBranchCmd b) <;>
    · simp only [deleteBranchCmd] at h ⊢
      simp [applyCmd, h]

theorem runTrace_nil (env : GitEnv) (d : String → List String) (st : RepoState) :
    runTrace env d st [] = st := rfl

theorem runTrace_cons (env : GitEnv) (d : String → List String) (st : RepoState)
    (c : Cmd) (t : List Cmd) :
    runTrace env d st (c :: t) = runTrace env d (applyCmd env d st c) t := rfl

theorem runTrace_append (env : GitEnv) (d : String → List String) (st : RepoState)
    (t₁ t₂ : List Cmd) :
    runTrace env d st (t₁ ++ t₂) = runTrace env d (runTrace env d st t₁) t₂ := by
  simp [runTrace, List.foldl_append]

theorem runTrace_reads (env : GitEnv) (d : String → List String) (st : RepoState)
    (t : List Cmd) (h : ∀ c ∈ t, mutates c = false) : runTrace env d st t = st := by
  induction t generalizing st with
  | nil => rfl
  | cons c t ih =>
    rw [runTrace_cons, applyCmd_read env d st c (h c (by simp))]
    exact ih st fun c hc => h c (by simp [hc])

theorem collectPatterns_eq (l : List String) :
    collectPatterns l = (l.map goTrim).filter (fun q => q ≠ "") := by
  induction l with
  | nil => rfl
  | cons p rest ih =>
    by_cases h : goTrim p = "" <;> simp [collectPatterns, h, ih]

theorem classifyFiles_eq (env : GitEnv) (raw : List String) :
    classifyFiles env raw =
      (((raw.map goTrim).filter (fun f => f ≠ "")).filter (fun f => isPromptFile env f),
       ((raw.map goTrim).filter (fun f => f ≠ "")).filter (fun f => !isPromptFile env f),
       ((raw.map goTrim).filter (fun f => f ≠ "")).map (fun _ => cfgPatternsCmd)) := by
  induction raw with
  | nil => rfl
  | cons file rest ih =>
    by_cases h0 : goTrim file = ""
    · simp [classifyFiles, h0, ih]
    · by_cases hp : isPromptFile env (goTrim file) <;>
        simp [classifyFiles, h0, hp, ih]

theorem foldl_filter_eq (files S : List String) :
    files.foldl (fun acc f => acc.filter (· ≠ f)) S =
      S.filter (fun x => decide (x ∉ files)) := by
  induction files generalizing S with
  | nil => simp
  | cons f fs ih =>
    rw [List.foldl_cons, ih, List.filter_filter]
    apply List.filter_congr
    intro x _
    by_cases hf : x = f <;> by_cases hm : x ∈ fs <;> simp [hf, hm]

theorem unstage_partition (p : String → Bool) (l : List String) :
    (l.filter (fun x => !p x)).foldl (fun acc f => acc.filter (· ≠ f)) l = l.filter p := by
  rw [foldl_filter_eq]
  apply List.filter_congr
  intro x hx
  by_cases hp : p x <;> simp [List.mem_filter, hx, hp]

theorem runTrace_unstage (env : GitEnv) (d : String → List String) (files : List String)
    (st : RepoState) (h : ∀ f ∈ files, env.ok (unstageCmd f) = true) :
    runTrace env d st (files.map unstageCmd) =
      { st with staged := files.foldl (fun acc f => acc.filter (· ≠ f)) st.staged } := by
  induction files generalizing st with
  | nil => rfl
  | cons f fs ih =>
    rw [List.map_cons, runTrace_cons, applyCmd_unstage, if_pos (h f (by simp)),
      List.foldl_cons]
    exact ih _ fun g hg => h g (by simp [hg])

theorem runTrace_unstage_shape (env : GitEnv) (d : String → List String)
    (files : List String) (st : RepoState) :
    ∃ S, runTrace env d st (files.map unstageCmd) = { st with staged := S } := by
  induction files generalizing st with
  | nil => exact ⟨st.staged, rfl⟩
  | cons f fs ih =>
    rw [List.map_cons, runTrace_cons, applyCmd_unstage]
    exact ih _

theorem analyzeCommit_trace_reads (env : GitEnv) (sha : String) :
    ∀ c ∈ (analyzeCommit env sha).2, mutates c = false := by
  intro c hc
  simp only [analyzeCommit, classifyFiles_eq] at hc
  split at hc
  · simp at hc
    simp [hc, mutates, logCmd]
  · split at hc
    · simp at hc
      rcases hc with rfl | rfl <;> simp [mutates, logCmd, revParseHead]
    · split at hc
      · simp at hc
        rcases hc with rfl | rfl | rfl <;>
          simp [mutates, logCmd, revParseHead, diffTreeCmd]
      · simp [List.mem_append, List.mem_map] at hc
        rcases hc with rfl | rfl | rfl | ⟨-, rfl⟩ <;>
          simp [mutates, logCmd, revParseHead, diffTreeCmd, cfgPatternsCmd]

theorem analyzeCommit_ok_sha (env : GitEnv) (sha : String) (ci : CommitInfo)
    (t : List Cmd) (h : analyzeCommit env sha = (.ok ci, t)) : ci.sha = sha := by
  simp only [analyzeCommit] at h
  split at h
  · simp at h
  · split at h
    · simp at h
    · split at h
      · simp at h
      · rw [Prod.mk.injEq] at h
        obtain ⟨h1, -⟩ := h
        rw [Except.ok.injEq] at h1
        rw [← h1]

theorem not_mem_of_reads (t : List Cmd) (h : ∀ c ∈ t, mutates c = false)
    (c : Cmd) (hm : mutates c = true) : c ∉ t := fun hc => by
  rw [h c hc] at hm
  exact Bool.false_ne_true hm

/-- C2: for every changed-path list and every pattern list (as read by the
environment), classification trims every entry and discards blank ones, then
places each remaining path in exactly one of the two outputs — `promptFiles`
iff the path starts with at least one pattern (simple prefix match),
`otherFiles` otherwise — with both outputs preserving the input order (each
is a filter of the cleaned input) and together exhausting it (their
concatenation is a permutation of the cleaned input). -/
theorem classify_partition (env : GitEnv) (raw : List String) :
    (classifyFiles env raw).1 =
      ((raw.map goTrim).filter (fun f => f ≠ "")).filter
        (fun f => (getPromptPatterns env).any fun pattern => goHasPfx f pattern) ∧
    (classifyFiles env raw).2.1 =
      ((raw.map goTrim).filter (fun f => f ≠ "")).filter
        (fun f => !((getPromptPatterns env).any fun pattern => goHasPfx f pattern)) ∧
    List.Perm ((classifyFiles env raw).1 ++ (classifyFiles env raw).2.1)
      ((raw.map goTrim).filter (fun f => f ≠ "")) ∧
    ∀ f ∈ (raw.map goTrim).filter (fun f => f ≠ ""),
      (f ∈ (classifyFiles env raw).1 ↔ isPromptFile env f = true) ∧
      (f ∈ (classifyFiles env raw).2.1 ↔ isPromptFile env f = false) := by
  rw [classifyFiles_eq]
  refine ⟨rfl, rfl, List.filter_append_perm _ _, ?_⟩
  intro f hf
  constructor
  · rw [List.mem_filter]
    simp only [hf, true_and, isPromptFile]
  · rw [List.mem_filter]
    simp only [hf, true_and, isPromptFile, Bool.not_eq_true']

/-- Concrete environment for the classification witness: no configuration
key is set, so the default patterns apply. -/
def envClassify : GitEnv where
  ok := fun _ => true
  out := fun _ => ""

theorem classify_partition_witness :
    (classifyFiles envClassify ["prompts/a.md", "  ", "src/x.go"]).1 = ["prompts/a.md"] ∧
    (classifyFiles envClassify ["prompts/a.md", "  ", "src/x.go"]).2.1 = ["src/x.go"] := by
  have h := classify_partition envClassify ["prompts/a.md", "  ", "src/x.go"]
  exact ⟨h.1.trans (by decide), h.2.1.trans (by decide)⟩

/-- C3: if at invocation time the current-branch read succeeds and the
branch name starts with `branchPrefix + "/"`, `processCommit` terminates
successfully as a no-op: it issues only the branch read and one
configuration read (both non-mutating), and the repository-state
interpretation of its trace fixes every state. -/
theorem guard_noop (env : GitEnv) (sha : String)
    (hok : env.ok revParseHead = true)
    (hpfx : goHasPfx (goTrim (env.out revParseHead)) (getBranchPfx env ++ "/") = true) :
    processCommit env sha = (.ok, [revParseHead, cfgBranchPfxCmd]) ∧
    (∀ c ∈ (processCommit env sha).2, mutates c = false) ∧
    ∀ (d : String → List String) (st : RepoState),
      runTrace env d st (processCommit env sha).2 = st := by
  have h1 : processCommit env sha = (.ok, [revParseHead, cfgBranchPfxCmd]) := by
    simp [processCommit, runGit, hok, hpfx]
  have h2 : ∀ c ∈ (processCommit env sha).2, mutates c = false := by
    rw [h1]
    intro c hc
    simp only [List.mem_cons, List.not_mem_nil, or_false] at hc
    rcases hc with rfl | rfl <;> rfl
  exact ⟨h1, h2, fun d st => runTrace_reads env d st _ h2⟩

/-- Concrete environment for the recursion-guard witness: every git call
succeeds and the current branch is named `skill-update/test123`. -/
def envGuard : GitEnv where
  ok := fun _ => true
  out := fun c => if c = revParseHead then "skill-update/test123" else ""

theorem guard_noop_witness :
    processCommit envGuard "abc1234" = (.ok, [revParseHead, cfgBranchPfxCmd]) :=
  (guard_noop envGuard "abc1234" rfl (by decide)).1

theorem guardTrace_reads (env : GitEnv) :
    ∀ c ∈ (if (runGit env revParseHead).2 then [revParseHead, cfgBranchPfxCmd]
           else [revParseHead]), mutates c = false := by
  intro c hc
  split at hc <;> simp only [List.mem_cons, List.not_mem_nil, or_false] at hc
  · rcases hc with rfl | rfl <;> rfl
  · subst hc
    rfl

/-- C6: when analysis succeeds and classifies no prompt files,
`processCommit` returns success, its whole trace is non-mutating (so the
branch set — indeed the whole repository state — is unchanged under the
state interpretation), and `main` exits 0. -/
theorem noPromptFiles_silent (env : GitEnv) (sha : String) (ci : CommitInfo)
    (t : List Cmd) (hA : analyzeCommit env sha = (.ok ci, t))
    (hEmpty : ci.promptFiles = []) :
    (processCommit env sha).1 = .ok ∧
    (∀ c ∈ (processCommit env sha).2, mutates c = false) ∧
    (∀ (d : String → List String) (st : RepoState),
      runTrace env d st (processCommit env sha).2 = st) ∧
    ∀ progName rest, (mainRun env (progName :: sha :: rest)).1 = 0 := by
  have hmain : processCommit env sha = (.ok, [revParseHead, cfgBranchPfxCmd]) ∨
      processCommit env sha =
        (.ok, (if (runGit env revParseHead).2 then [revParseHead, cfgBranchPfxCmd]
               else [revParseHead]) ++ t) := by
    by_cases hg : ((runGit env revParseHead).2 &&
        goHasPfx (runGit env revParseHead).1 (getBranchPfx env ++ "/")) = true
    · left
      simp only [processCommit, hg, if_true]
    · right
      rw [Bool.not_eq_true] at hg
      simp only [processCommit, hg, Bool.false_eq_true, if_false]
      rw [hA]
      simp [hEmpty]
  have htr : ∀ c ∈ (processCommit env sha).2, mutates c = false := by
    rcases hmain with h1 | h1 <;> rw [h1] <;> intro c hc
    · simp only [List.mem_cons, List.not_mem_nil, or_false] at hc
      rcases hc with rfl | rfl <;> rfl
    · rw [List.mem_append] at hc
      rcases hc with hg | hc
      · exact guardTrace_reads env c hg
      · exact analyzeCommit_trace_reads env sha c (by rw [hA]; exact hc)
  have hres : (processCommit env sha).1 = .ok := by
    rcases hmain with h1 | h1 <;> rw [h1]
  refine ⟨hres, htr, fun d st => runTrace_reads env d st _ htr, ?_⟩
  intro progName rest
  rcases hpc : processCommit env sha with ⟨o, tr⟩
  rw [hpc] at hres
  simp only [mainRun, hpc]
  rw [show o = .ok from hres]

/-- Concrete environment for the no-prompt-files witness: every call
succeeds, the current branch is `feature`, and the commit touched only
`src/main.go`. -/
def envNoPrompt : GitEnv where
  ok := fun _ => true
  out := fun c =>
    if c = revParseHead then "feature"
    else if c = diffTreeCmd "abc1234" then "src/main.go"
    else if c = logCmd "abc1234" then "add code"
    else ""

theorem noPromptFiles_silent_witness :
    (processCommit envNoPrompt "abc1234").1 = .ok ∧
    (mainRun envNoPrompt ["prrompt", "abc1234"]).1 = 0 := by
  have h := noPromptFiles_silent envNoPrompt "abc1234"
    ⟨"abc1234", "add code", [], ["src/main.go"], true, "feature"⟩
    [logCmd "abc1234", revParseHead, diffTreeCmd "abc1234", cfgPatternsCmd]
    (by rfl) (by rfl)
  exact ⟨h.1, h.2.2.2 "prrompt" []⟩

/-- C7: when the recursion guard does not fire and analysis fails (as it
does on an invalid or unknown commit identifier), `processCommit` propagates
the analysis error immediately, wrapped as `error analyzing commit: …`; its
trace holds only read commands — in particular no branch creation, no
cherry-pick abort and no branch deletion — and the repository state is
unchanged under the interpretation. -/
theorem analysisError_propagates (env : GitEnv) (sha : String) (e : String)
    (t : List Cmd)
    (hguard : ((runGit env revParseHead).2 &&
      goHasPfx (runGit env revParseHead).1 (getBranchPfx env ++ "/")) = false)
    (hA : analyzeCommit env sha = (.error e, t)) :
    processCommit env sha =
      (.error ("error analyzing commit: " ++ e),
       (if (runGit env revParseHead).2 then [revParseHead, cfgBranchPfxCmd]
        else [revParseHead]) ++ t) ∧
    (∀ c ∈ (processCommit env sha).2, mutates c = false) ∧
    (∀ (d : String → List String) (st : RepoState),
      runTrace env d st (processCommit env sha).2 = st) ∧
    abortCherryPickCmd ∉ (processCommit env sha).2 ∧
    (∀ b, deleteBranchCmd b ∉ (processCommit env sha).2) ∧
    ∀ b base, checkoutNewCmd b base ∉ (processCommit env sha).2 := by
  have h1 : processCommit env sha =
      (.error ("error analyzing commit: " ++ e),
       (if (runGit env revParseHead).2 then [revParseHead, cfgBranchPfxCmd]
        else [revParseHead]) ++ t) := by
    simp only [processCommit, hguard, Bool.false_eq_true, if_false]
    rw [hA]
  have htr : ∀ c ∈ (processCommit env sha).2, mutates c = false := by
    rw [h1]
    intro c hc
    rw [List.mem_append] at hc
    rcases hc with hg | hc
    · exact guardTrace_reads env c hg
    · exact analyzeCommit_trace_reads env sha c (by rw [hA]; exact hc)
  refine ⟨h1, htr, fun d st => runTrace_reads env d st _ htr, ?_, ?_, ?_⟩
  · exact not_mem_of_reads _ htr _ rfl
  · exact fun b => not_mem_of_reads _ htr _ rfl
  · exact fun b base => not_mem_of_reads _ htr _ rfl

/-- Concrete environment for the analysis-error witness: reading the commit
message of the bad identifier fails, everything else succeeds. -/
def envBadSha : GitEnv where
  ok := fun c => c ≠ logCmd "invalid-sha-12345"
  out := fun c => if c = revParseHead then "feature" else ""

theorem analysisError_propagates_witness :
    processCommit envBadSha "invalid-sha-12345" =
      (.error ("error analyzing commit: " ++ "failed to get commit message"),
       [revParseHead, cfgBranchPfxCmd, logCmd "invalid-sha-12345"]) := by
  have h := analysisError_propagates envBadSha "invalid-sha-12345"
    "failed to get commit message" [logCmd "invalid-sha-12345"]
    (by decide) (by rfl)
  exact h.1

/-- C10: when the recursion guard does not fire, analysis accepts the commit
identifier, the classified prompt files are non-empty, and the identifier is
shorter than 7 bytes, the extraction step panics on the unguarded slice
`sha[:7]` before issuing a single git command — the whole run's trace is
read-only, so no repository mutation has happened at the moment of the
panic. -/
theorem shortSha_panics (env : GitEnv) (sha : String) (ci : CommitInfo)
    (t : List Cmd)
    (hguard : ((runGit env revParseHead).2 &&
      goHasPfx (runGit env revParseHead).1 (getBranchPfx env ++ "/")) = false)
    (hA : analyzeCommit env sha = (.ok ci, t))
    (hNonempty : ci.promptFiles ≠ []) (hshort : sha.length < 7) :
    (processCommit env sha).1 = .panicked "runtime error: slice bounds out of range" ∧
    (∀ c ∈ (processCommit env sha).2, mutates c = false) ∧
    ∀ (d : String → List String) (st : RepoState),
      runTrace env d st (processCommit env sha).2 = st := by
  have hsha : ci.sha = sha := analyzeCommit_ok_sha env sha ci t hA
  have hx : extractPrompts env ci =
      (.panicked "runtime error: slice bounds out of range", []) := by
    rw [extractPrompts, goSlice, hsha, if_neg (by omega)]
  have h1 : processCommit env sha =
      (.panicked "runtime error: slice bounds out of range",
       (if (runGit env revParseHead).2 then [revParseHead, cfgBranchPfxCmd]
        else [revParseHead]) ++ t) := by
    simp only [processCommit, hguard, Bool.false_eq_true, if_false]
    rw [hA]
    simp [hx, hNonempty]
  have htr : ∀ c ∈ (processCommit env sha).2, mutates c = false := by
    rw [h1]
    intro c hc
    rw [List.mem_append] at hc
    rcases hc with hg | hc
    · exact guardTrace_reads env c hg
    · exact analyzeCommit_trace_reads env sha c (by rw [hA]; exact hc)
  refine ⟨by rw [h1], htr, fun d st => runTrace_reads env d st _ htr⟩

/-- Concrete environment for the short-identifier witness: every call
succeeds, the current branch is `feature`, and the 5-character identifier
`abc12` names a commit touching `prompts/a.md`. -/
def envShort : GitEnv where
  ok := fun _ => true
  out := fun c =>
    if c = revParseHead then "feature"
    else if c = diffTreeCmd "abc12" then "prompts/a.md"
    else if c = logCmd "abc12" then "m"
    else ""

theorem shortSha_panics_witness :
    (processCommit envShort "abc12").1 =
      .panicked "runtime error: slice bounds out of range" := by
  have h := shortSha_panics envShort "abc12"
    ⟨"abc12", "m", ["prompts/a.md"], [], false, "feature"⟩
    [logCmd "abc12", revParseHead, diffTreeCmd "abc12", cfgPatternsCmd]
    (by decide) (by rfl) (by decide) (by decide)
  exact h.1

theorem applyCmd_cfgBranchPfx (env : GitEnv) (d : String → List String)
    (st : RepoState) : applyCmd env d st cfgBranchPfxCmd = st :=
  applyCmd_cfg env d st _

theorem applyCmd_cfgBaseBranch (env : GitEnv) (d : String → List String)
    (st : RepoState) : applyCmd env d st cfgBaseBranchCmd = st :=
  applyCmd_cfg env d st _

theorem applyCmd_cfgCommitPfx (env : GitEnv) (d : String → List String)
    (st : RepoState) : applyCmd env d st cfgCommitPfxCmd = st :=
  applyCmd_cfg env d st _

theorem generatePRURL_trace (env : GitEnv) (b : String) :
    (generatePRURL env b).2 = [cfgRemoteURLCmd] ∨
    (generatePRURL env b).2 = [cfgRemoteURLCmd, cfgBaseBranchCmd] := by
  simp only [generatePRURL]
  repeat' split
  all_goals first | exact Or.inl rfl | exact Or.inr rfl

theorem generatePRURL_reads (env : GitEnv) (b : String) :
    ∀ c ∈ (generatePRURL env b).2, mutates c = false := by
  intro c hc
  rcases generatePRURL_trace env b with h | h <;> rw [h] at hc <;>
    simp only [List.mem_cons, List.not_mem_nil, or_false] at hc
  · subst hc
    rfl
  · rcases hc with rfl | rfl <;> rfl

theorem runTrace_unstageIf_shape (env : GitEnv) (d : String → List String)
    (b : Bool) (files : List String) (st : RepoState) :
    ∃ S, runTrace env d st (if b then files.map unstageCmd else []) =
      { st with staged := S } := by
  cases b
  · exact ⟨st.staged, rfl⟩
  · exact runTrace_unstage_shape env d files st

theorem filter_ne_of_not_mem {a : String} {l : List String} (h : a ∉ l) :
    l.filter (· ≠ a) = l := by
  rw [List.filter_eq_self]
  intro b hb
  simp only [decide_eq_true_eq]
  exact fun e => h (e ▸ hb)

theorem extractPrompts_success_eq (env : GitEnv) (info : CommitInfo)
    (h7 : 7 ≤ info.sha.length)
    (hco : env.ok (checkoutNewCmd (promptBranchName env (goTake info.sha 7))
      (getBaseBranch env)) = true)
    (hcp : env.ok (cherryPickCmd info.sha) = true)
    (hcm : env.ok (commitCmd (extractionMsg env info (goTake info.sha 7))) = true)
    (hback : env.ok (checkoutForceCmd info.sourceBranch) = true) :
    extractPrompts env info =
      (.ok,
       cfgBranchPfxCmd :: cfgBaseBranchCmd ::
         checkoutNewCmd (promptBranchName env (goTake info.sha 7)) (getBaseBranch env) ::
         cherryPickCmd info.sha ::
         ((if info.isMixed then info.otherFiles.map unstageCmd else []) ++
          (cfgCommitPfxCmd :: commitCmd (extractionMsg env info (goTake info.sha 7)) ::
           pushCmd (promptBranchName env (goTake info.sha 7)) ::
           checkoutForceCmd info.sourceBranch ::
           (generatePRURL env (promptBranchName env (goTake info.sha 7))).2))) := by
  rw [extractPrompts, goSlice, if_pos h7]
  simp [hco, hcp, hcm, hback]

theorem extractPrompts_cpFail_eq (env : GitEnv) (info : CommitInfo)
    (h7 : 7 ≤ info.sha.length)
    (hco : env.ok (checkoutNewCmd (promptBranchName env (goTake info.sha 7))
      (getBaseBranch env)) = true)
    (hcp : env.ok (cherryPickCmd info.sha) = false) :
    extractPrompts env info =
      (.error "failed to cherry-pick",
       [cfgBranchPfxCmd, cfgBaseBranchCmd,
        checkoutNewCmd (promptBranchName env (goTake info.sha 7)) (getBaseBranch env),
        cherryPickCmd info.sha] ++
         cleanupCmds info.sourceBranch (promptBranchName env (goTake info.sha 7))) := by
  rw [extractPrompts, goSlice, if_pos h7]
  simp [hco, hcp]

theorem extractPrompts_cmFail_eq (env : GitEnv) (info : CommitInfo)
    (h7 : 7 ≤ info.sha.length)
    (hco : env.ok (checkoutNewCmd (promptBranchName env (goTake info.sha 7))
      (getBaseBranch env)) = true)
    (hcp : env.ok (cherryPickCmd info.sha) = true)
    (hcm : env.ok (commitCmd (extractionMsg env info (goTake info.sha 7))) = false) :
    extractPrompts env info =
      (.error "failed to commit",
       cfgBranchPfxCmd :: cfgBaseBranchCmd ::
         checkoutNewCmd (promptBranchName env (goTake info.sha 7)) (getBaseBranch env) ::
         cherryPickCmd info.sha ::
         ((if info.isMixed then info.otherFiles.map unstageCmd else []) ++
          (cfgCommitPfxCmd :: commitCmd (extractionMsg env info (goTake info.sha 7)) ::
           cleanupCmds info.sourceBranch (promptBranchName env (goTake info.sha 7))))) := by
  rw [extractPrompts, goSlice, if_pos h7]
  simp [hco, hcp, hcm]

/-- C8: when branch creation, cherry-pick and commit succeed but the push
fails, the run still reports success; the trace shows the workflow continuing
past the failed push through the force-switch back to `sourceBranch` and the
PR-URL computation (the remote-URL read), and under the state interpretation
the extraction branch still exists locally and the user is back on
`sourceBranch`. -/
theorem push_failure_nonfatal (env : GitEnv) (info : CommitInfo)
    (h7 : 7 ≤ info.sha.length)
    (hco : env.ok (checkoutNewCmd (promptBranchName env (goTake info.sha 7))
      (getBaseBranch env)) = true)
    (hcp : env.ok (cherryPickCmd info.sha) = true)
    (hcm : env.ok (commitCmd (extractionMsg env info (goTake info.sha 7))) = true)
    (_hpush : env.ok (pushCmd (promptBranchName env (goTake info.sha 7))) = false)
    (hback : env.ok (checkoutForceCmd info.sourceBranch) = true) :
    (extractPrompts env info).1 = .ok ∧
    pushCmd (promptBranchName env (goTake info.sha 7)) ∈ (extractPrompts env info).2 ∧
    checkoutForceCmd info.sourceBranch ∈ (extractPrompts env info).2 ∧
    cfgRemoteURLCmd ∈ (extractPrompts env info).2 ∧
    ∀ (d : String → List String) (st : RepoState),
      (runTrace env d st (extractPrompts env info).2).branches =
        promptBranchName env (goTake info.sha 7) :: st.branches ∧
      (runTrace env d st (extractPrompts env info).2).current = info.sourceBranch := by
  have hT := extractPrompts_success_eq env info h7 hco hcp hcm hback
  have hurl : cfgRemoteURLCmd ∈ (generatePRURL env
      (promptBranchName env (goTake info.sha 7))).2 := by
    rcases generatePRURL_trace env (promptBranchName env (goTake info.sha 7)) with h | h <;>
      rw [h] <;> simp
  refine ⟨by rw [hT], ?_, ?_, ?_, ?_⟩
  · rw [hT]
    simp
  · rw [hT]
    simp
  · rw [hT]
    simp [hurl]
  · intro d st
    rw [hT]
    simp only
    rw [runTrace_cons, applyCmd_cfgBranchPfx, runTrace_cons, applyCmd_cfgBaseBranch,
      runTrace_cons, applyCmd_checkoutNew env d _ _ _ hco,
      runTrace_cons, applyCmd_cherryPick env d _ _ hcp,
      runTrace_append]
    obtain ⟨S, hS⟩ := runTrace_unstageIf_shape env d info.isMixed info.otherFiles _
    rw [hS, runTrace_cons, applyCmd_cfgCommitPfx,
      runTrace_cons, applyCmd_commit env d _ _ hcm,
      runTrace_cons, applyCmd_push,
      runTrace_cons, applyCmd_checkoutForce env d _ _ hback,
      runTrace_reads env d _ _ (generatePRURL_reads env _)]
    exact ⟨rfl, rfl⟩

/-- Concrete environment for the push-failure witness: everything succeeds
except pushing the extraction branch; the commit `abc1234def` touches only
`prompts/a.md` on branch `feature`. -/
def envPushFail : GitEnv where
  ok := fun c => c ≠ ["push", "origin", "skill-update/abc1234", "-u"]
  out := fun c =>
    if c = revParseHead then "feature"
    else if c = diffTreeCmd "abc1234def" then "prompts/a.md"
    else if c = logCmd "abc1234def" then "add prompt"
    else ""

/-- The commit record `analyzeCommit` produces in the push-failure run. -/
def infoPushFail : CommitInfo :=
  ⟨"abc1234def", "add prompt", ["prompts/a.md"], [], false, "feature"⟩

theorem push_failure_nonfatal_witness :
    (extractPrompts envPushFail infoPushFail).1 = .ok ∧
    (runTrace envPushFail (fun _ => ["prompts/a.md"])
        ⟨["feature", "main"], "feature", [], [], none, none⟩
        (extractPrompts envPushFail infoPushFail).2).branches =
      ["skill-update/abc1234", "feature", "main"] := by
  have h := push_failure_nonfatal envPushFail infoPushFail (by decide) (by decide)
    (by decide) (by decide) (by decide) (by decide)
  refine ⟨h.1, ?_⟩
  have h2 := (h.2.2.2.2 (fun _ => ["prompts/a.md"])
    ⟨["feature", "main"], "feature", [], [], none, none⟩).1
  rw [h2]
  rfl

/-- C5: in a successful extraction run, the message of the commit recorded
on the extraction branch is exactly `"[" + commitPrefix + "] "` followed by
the original message, with the two newlines and the
`Extracted from <sourceBranch> (<shortSha>)` suffix appended if and only if
the commit is mixed — a prompt-only commit's message is exactly the prefixed
original with nothing appended. -/
theorem extraction_commit_message (env : GitEnv) (info : CommitInfo)
    (h7 : 7 ≤ info.sha.length)
    (hco : env.ok (checkoutNewCmd (promptBranchName env (goTake info.sha 7))
      (getBaseBranch env)) = true)
    (hcp : env.ok (cherryPickCmd info.sha) = true)
    (hcm : env.ok (commitCmd (extractionMsg env info (goTake info.sha 7))) = true)
    (hback : env.ok (checkoutForceCmd info.sourceBranch) = true) :
    (∀ (d : String → List String) (st : RepoState),
      ((runTrace env d st (extractPrompts env info).2).committed).map Prod.snd =
        some (extractionMsg env info (goTake info.sha 7))) ∧
    (info.isMixed = true → extractionMsg env info (goTake info.sha 7) =
      "[" ++ getCommitPfx env ++ "] " ++ info.message ++ "\n\nExtracted from " ++
        info.sourceBranch ++ " (" ++ goTake info.sha 7 ++ ")") ∧
    (info.isMixed = false → extractionMsg env info (goTake info.sha 7) =
      "[" ++ getCommitPfx env ++ "] " ++ info.message) := by
  have hT := extractPrompts_success_eq env info h7 hco hcp hcm hback
  refine ⟨?_, fun hm => by simp [extractionMsg, hm], fun hm => by simp [extractionMsg, hm]⟩
  intro d st
  rw [hT]
  simp only
  rw [runTrace_cons, applyCmd_cfgBranchPfx, runTrace_cons, applyCmd_cfgBaseBranch,
    runTrace_cons, applyCmd_checkoutNew env d _ _ _ hco,
    runTrace_cons, applyCmd_cherryPick env d _ _ hcp,
    runTrace_append]
  obtain ⟨S, hS⟩ := runTrace_unstageIf_shape env d info.isMixed info.otherFiles _
  rw [hS, runTrace_cons, applyCmd_cfgCommitPfx,
    runTrace_cons, applyCmd_commit env d _ _ hcm,
    runTrace_cons, applyCmd_push,
    runTrace_cons, applyCmd_checkoutForce env d _ _ hback,
    runTrace_reads env d _ _ (generatePRURL_reads env _)]
  rfl

/-- Concrete all-success environment for the commit-message witness: the
mixed commit `abc1234def` touches `prompts/a.md` and `src/main.go` on branch
`feature`. -/
def envMsg : GitEnv where
  ok := fun _ => true
  out := fun c =>
    if c = revParseHead then "feature"
    else if c = diffTreeCmd "abc1234def" then "prompts/a.md\nsrc/main.go"
    else if c = logCmd "abc1234def" then "update prompt"
    else ""

/-- The commit record `analyzeCommit` produces in the mixed-commit run. -/
def infoMsg : CommitInfo :=
  ⟨"abc1234def", "update prompt", ["prompts/a.md"], ["src/main.go"], true, "feature"⟩

theorem extraction_commit_message_witness :
    ((runTrace envMsg (fun _ => ["prompts/a.md", "src/main.go"])
        ⟨["feature", "main"], "feature", [], [], none, none⟩
        (extractPrompts envMsg infoMsg).2).committed).map Prod.snd =
      some "[prompt] update prompt\n\nExtracted from feature (abc1234)" ∧
    extractionMsg envMsg infoMsg (goTake infoMsg.sha 7) =
      "[" ++ getCommitPfx envMsg ++ "] " ++ infoMsg.message ++ "\n\nExtracted from " ++
        infoMsg.sourceBranch ++ " (" ++ goTake infoMsg.sha 7 ++ ")" := by
  have h := extraction_commit_message envMsg infoMsg (by decide) (by decide)
    (by decide) (by decide) (by decide)
  refine ⟨?_, h.2.1 (by decide)⟩
  have h1 := h.1 (fun _ => ["prompts/a.md", "src/main.go"])
    ⟨["feature", "main"], "feature", [], [], none, none⟩
  rw [h1]
  rfl

/-- C4: for a mixed commit (the classifier split a changed-file list `l`
into prompt and other files, the latter non-empty), a successful extraction
unstages every other-file and issues no plain `git restore <path>` (so the
other-files' working-tree content is never reverted); under the state
interpretation the extraction commit's tree is exactly the prompt files, the
working tree at commit time still holds the whole cherry-picked delta —
other files included — and every other-file is present in that delta but
excluded from the committed tree. -/
theorem mixed_commit_unstages_only (env : GitEnv) (info : CommitInfo) (l : List String)
    (hprompt : info.promptFiles = l.filter (fun f => isPromptFile env f))
    (hother : info.otherFiles = l.filter (fun f => !isPromptFile env f))
    (hmix : info.isMixed = true)
    (h7 : 7 ≤ info.sha.length)
    (hco : env.ok (checkoutNewCmd (promptBranchName env (goTake info.sha 7))
      (getBaseBranch env)) = true)
    (hcp : env.ok (cherryPickCmd info.sha) = true)
    (hcm : env.ok (commitCmd (extractionMsg env info (goTake info.sha 7))) = true)
    (hback : env.ok (checkoutForceCmd info.sourceBranch) = true)
    (hunstage : ∀ f ∈ info.otherFiles, env.ok (unstageCmd f) = true) :
    (∀ f ∈ info.otherFiles, unstageCmd f ∈ (extractPrompts env info).2) ∧
    (∀ f : String, ["restore", f] ∉ (extractPrompts env info).2) ∧
    (∀ f ∈ info.otherFiles, f ∈ l ∧ f ∉ info.promptFiles) ∧
    ∀ (d : String → List String) (st : RepoState), d info.sha = l →
      (runTrace env d st (extractPrompts env info).2).committed =
        some (info.promptFiles, extractionMsg env info (goTake info.sha 7)) ∧
      (runTrace env d st (extractPrompts env info).2).wtAtCommit = some l := by
  have hT := extractPrompts_success_eq env info h7 hco hcp hcm hback
  refine ⟨?_, ?_, ?_, ?_⟩
  · intro f hf
    rw [hT]
    have hm : unstageCmd f ∈ info.otherFiles.map unstageCmd := List.mem_map_of_mem _ hf
    simp [hmix, hm]
  · intro f hmem
    rw [hT] at hmem
    simp only [hmix, if_true, List.mem_cons, List.mem_append, List.mem_map] at hmem
    rcases hmem with h | h | h | h | ⟨x, -, h⟩ | h | h | h | h | h
    · simp [cfgBranchPfxCmd] at h
    · simp [cfgBaseBranchCmd] at h
    · simp [checkoutNewCmd] at h
    · simp [cherryPickCmd] at h
    · simp [unstageCmd] at h
    · simp [cfgCommitPfxCmd] at h
    · simp [commitCmd] at h
    · simp [pushCmd] at h
    · simp [checkoutForceCmd] at h
    · have hr := generatePRURL_reads env (promptBranchName env (goTake info.sha 7))
        ["restore", f] h
      simp [mutates] at hr
  · intro f hf
    rw [hother, List.mem_filter] at hf
    refine ⟨hf.1, ?_⟩
    rw [hprompt, List.mem_filter]
    rintro ⟨-, hp⟩
    rw [Bool.not_eq_true'] at hf
    rw [hf.2] at hp
    exact Bool.false_ne_true hp
  · intro d st hd
    rw [hT]
    simp only [hmix, if_true]
    rw [runTrace_cons, applyCmd_cfgBranchPfx, runTrace_cons, applyCmd_cfgBaseBranch,
      runTrace_cons, applyCmd_checkoutNew env d _ _ _ hco,
      runTrace_cons, applyCmd_cherryPick env d _ _ hcp, runTrace_append,
      runTrace_unstage env d _ _ hunstage,
      runTrace_cons, applyCmd_cfgCommitPfx, runTrace_cons,
      applyCmd_commit env d _ _ hcm,
      runTrace_cons, applyCmd_push, runTrace_cons,
      applyCmd_checkoutForce env d _ _ hback,
      runTrace_reads env d _ _ (generatePRURL_reads env _)]
    constructor
    · show some (info.otherFiles.foldl (fun acc f => acc.filter (· ≠ f)) (d info.sha),
        extractionMsg env info (goTake info.sha 7)) = _
      rw [hd, hother, unstage_partition, ← hprompt]
    · show some (d info.sha) = some l
      rw [hd]

/-- Concrete all-success environment for the mixed-commit witness. -/
def envMixed : GitEnv where
  ok := fun _ => true
  out := fun c =>
    if c = revParseHead then "feature"
    else if c = diffTreeCmd "abc1234def" then "prompts/a.md\nsrc/main.go"
    else if c = logCmd "abc1234def" then "update prompt"
    else ""

/-- The commit record `analyzeCommit` produces in the mixed-commit
unstage-only run. -/
def infoMixed : CommitInfo :=
  ⟨"abc1234def", "update prompt", ["prompts/a.md"], ["src/main.go"], true, "feature"⟩

theorem mixed_commit_unstages_only_witness :
    unstageCmd "src/main.go" ∈ (extractPrompts envMixed infoMixed).2 ∧
    ["restore", "src/main.go"] ∉ (extractPrompts envMixed infoMixed).2 ∧
    (runTrace envMixed (fun _ => ["prompts/a.md", "src/main.go"])
        ⟨["feature", "main"], "feature", [], [], none, none⟩
        (extractPrompts envMixed infoMixed).2).committed =
      some (["prompts/a.md"],
        extractionMsg envMixed infoMixed (goTake infoMixed.sha 7)) := by
  have h := mixed_commit_unstages_only envMixed infoMixed
    ["prompts/a.md", "src/main.go"] (by decide) (by decide) (by decide) (by decide)
    (by decide) (by decide) (by decide) (by decide) (by decide)
  refine ⟨h.1 "src/main.go" (by decide), h.2.1 "src/main.go", ?_⟩
  have h4 := (h.2.2.2 (fun _ => ["prompts/a.md", "src/main.go"])
    ⟨["feature", "main"], "feature", [], [], none, none⟩ rfl).1
  rw [h4]
  rfl

/-- C1: if the extraction branch was created and then the cherry-pick or the
commit step fails, the full compensating sequence (`cherry-pick --abort`,
`checkout <sourceBranch>`, `branch -D <promptBranch>`) is always the tail of
the trace — attempted whatever the oracle answers for each of its sub-steps —
the error surfaced is the one of the triggering step, and under the state
interpretation (when the delete is able to run) the branch list is restored
exactly, so no half-created extraction branch is left behind; when the
switch-back is able to run the user is back on `sourceBranch`. -/
theorem extraction_failure_cleanup (env : GitEnv) (info : CommitInfo)
    (h7 : 7 ≤ info.sha.length)
    (hco : env.ok (checkoutNewCmd (promptBranchName env (goTake info.sha 7))
      (getBaseBranch env)) = true)
    (hfail : env.ok (cherryPickCmd info.sha) = false ∨
      (env.ok (cherryPickCmd info.sha) = true ∧
       env.ok (commitCmd (extractionMsg env info (goTake info.sha 7))) = false)) :
    ((extractPrompts env info).1 =
      .error (if env.ok (cherryPickCmd info.sha) then "failed to commit"
              else "failed to cherry-pick")) ∧
    ((extractPrompts env info).2 =
      if env.ok (cherryPickCmd info.sha) then
        cfgBranchPfxCmd :: cfgBaseBranchCmd ::
          checkoutNewCmd (promptBranchName env (goTake info.sha 7)) (getBaseBranch env) ::
          cherryPickCmd info.sha ::
          ((if info.isMixed then info.otherFiles.map unstageCmd else []) ++
           (cfgCommitPfxCmd :: commitCmd (extractionMsg env info (goTake info.sha 7)) ::
            cleanupCmds info.sourceBranch (promptBranchName env (goTake info.sha 7))))
      else
        [cfgBranchPfxCmd, cfgBaseBranchCmd,
         checkoutNewCmd (promptBranchName env (goTake info.sha 7)) (getBaseBranch env),
         cherryPickCmd info.sha] ++
          cleanupCmds info.sourceBranch (promptBranchName env (goTake info.sha 7))) ∧
    (∀ (d : String → List String) (st : RepoState),
      promptBranchName env (goTake info.sha 7) ∉ st.branches →
      env.ok (deleteBranchCmd (promptBranchName env (goTake info.sha 7))) = true →
      (runTrace env d st (extractPrompts env info).2).branches = st.branches) ∧
    (∀ (d : String → List String) (st : RepoState),
      env.ok (checkoutCmd info.sourceBranch) = true →
      (runTrace env d st (extractPrompts env info).2).current = info.sourceBranch) := by
  rcases hfail with hcp | ⟨hcp, hcm⟩
  · have hT := extractPrompts_cpFail_eq env info h7 hco hcp
    refine ⟨by rw [hT]; simp [hcp], by rw [hT]; simp [hcp], ?_, ?_⟩
    · intro d st hnm hdel
      rw [hT]
      simp only [List.cons_append, List.nil_append, cleanupCmds]
      rw [runTrace_cons, applyCmd_cfgBranchPfx, runTrace_cons, applyCmd_cfgBaseBranch,
        runTrace_cons, applyCmd_checkoutNew env d _ _ _ hco,
        runTrace_cons, applyCmd_fail env d _ _ hcp,
        runTrace_cons, applyCmd_abort, runTrace_cons, applyCmd_checkout,
        runTrace_cons, applyCmd_deleteBranch, runTrace_nil]
      simp [hdel, filter_ne_of_not_mem hnm]
      exact fun a ha e => hnm (e ▸ ha)
    · intro d st hck
      rw [hT]
      simp only [List.cons_append, List.nil_append, cleanupCmds]
      rw [runTrace_cons, applyCmd_cfgBranchPfx, runTrace_cons, applyCmd_cfgBaseBranch,
        runTrace_cons, applyCmd_checkoutNew env d _ _ _ hco,
        runTrace_cons, applyCmd_fail env d _ _ hcp,
        runTrace_cons, applyCmd_abort, runTrace_cons, applyCmd_checkout,
        runTrace_cons, applyCmd_deleteBranch, runTrace_nil]
      simp [hck]
  · have hT := extractPrompts_cmFail_eq env info h7 hco hcp hcm
    refine ⟨by rw [hT]; simp [hcp], by rw [hT]; simp [hcp], ?_, ?_⟩
    · intro d st hnm hdel
      rw [hT]
      simp only [cleanupCmds]
      rw [runTrace_cons, applyCmd_cfgBranchPfx, runTrace_cons, applyCmd_cfgBaseBranch,
        runTrace_cons, applyCmd_checkoutNew env d _ _ _ hco,
        runTrace_cons, applyCmd_cherryPick env d _ _ hcp, runTrace_append]
      obtain ⟨S, hS⟩ := runTrace_unstageIf_shape env d info.isMixed info.otherFiles _
      rw [hS, runTrace_cons, applyCmd_cfgCommitPfx,
        runTrace_cons, applyCmd_fail env d _ _ hcm,
        runTrace_cons, applyCmd_abort, runTrace_cons, applyCmd_checkout,
        runTrace_cons, applyCmd_deleteBranch, runTrace_nil]
      simp [hdel, filter_ne_of_not_mem hnm]
      exact fun a ha e => hnm (e ▸ ha)
    · intro d st hck
      rw [hT]
      simp only [cleanupCmds]
      rw [runTrace_cons, applyCmd_cfgBranchPfx, runTrace_cons, applyCmd_cfgBaseBranch,
        runTrace_cons, applyCmd_checkoutNew env d _ _ _ hco,
        runTrace_cons, applyCmd_cherryPick env d _ _ hcp, runTrace_append]
      obtain ⟨S, hS⟩ := runTrace_unstageIf_shape env d info.isMixed info.otherFiles _
      rw [hS, runTrace_cons, applyCmd_cfgCommitPfx,
        runTrace_cons, applyCmd_fail env d _ _ hcm,
        runTrace_cons, applyCmd_abort, runTrace_cons, applyCmd_checkout,
        runTrace_cons, applyCmd_deleteBranch, runTrace_nil]
      simp [hck]

/-- Concrete environment for the failure-cleanup witness: creating the
branch succeeds but cherry-picking `abc1234def` fails (a conflict); every
other call succeeds. -/
def envCpFail : GitEnv where
  ok := fun c => c ≠ cherryPickCmd "abc1234def"
  out := fun c =>
    if c = revParseHead then "feature"
    else if c = diffTreeCmd "abc1234def" then "prompts/a.md"
    else if c = logCmd "abc1234def" then "add prompt"
    else ""

/-- The commit record `analyzeCommit` produces in the failure-cleanup run. -/
def infoCpFail : CommitInfo :=
  ⟨"abc1234def", "add prompt", ["prompts/a.md"], [], false, "feature"⟩

theorem extraction_failure_cleanup_witness :
    (extractPrompts envCpFail infoCpFail).1 = .error "failed to cherry-pick" ∧
    (runTrace envCpFail (fun _ => ["prompts/a.md"])
        ⟨["feature", "main"], "feature", [], [], none, none⟩
        (extractPrompts envCpFail infoCpFail).2).branches = ["feature", "main"] ∧
    (runTrace envCpFail (fun _ => ["prompts/a.md"])
        ⟨["feature", "main"], "feature", [], [], none, none⟩
        (extractPrompts envCpFail infoCpFail).2).current = "feature" := by
  have h := extraction_failure_cleanup envCpFail infoCpFail (by decide) (by decide)
    (Or.inl (by decide))
  refine ⟨h.1.trans (by decide), ?_, ?_⟩
  · exact h.2.2.1 (fun _ => ["prompts/a.md"])
      ⟨["feature", "main"], "feature", [], [], none, none⟩ (by decide) (by decide)
  · exact h.2.2.2 (fun _ => ["prompts/a.md"])
      ⟨["feature", "main"], "feature", [], [], none, none⟩ (by decide)

theorem getPromptPatterns_custom (env : GitEnv) (v : String)
    (hok : env.ok cfgPatternsCmd = true) (hval : goTrim (env.out cfgPatternsCmd) = v)
    (hne : v ≠ "")
    (hres : ((goSplitCh v ',').map goTrim).filter (fun q => q ≠ "") ≠ []) :
    getPromptPatterns env = ((goSplitCh v ',').map goTrim).filter (fun q => q ≠ "") := by
  unfold getPromptPatterns
  simp only [runGit, hok, hval, Bool.not_true, Bool.false_or]
  rw [if_neg (by simpa using hne), collectPatterns_eq]
  rw [if_neg (by simpa [List.length_eq_zero] using hres)]

/-- C9: each of the four configuration keys is optional — a failed read
(absent key) or an empty (trimmed) value falls back to the default; the
patterns value is parsed by splitting on commas, trimming each entry and
dropping empties; and configured values fully override the defaults at their
use points: the generated branch name, the commit-message prefix, the base
branch, and the classification predicate (which tests the path against
exactly the configured pattern list). -/
theorem config_defaults_overrides (env : GitEnv) :
    (env.ok cfgCommitPfxCmd = false → getCommitPfx env = defaultCommitPfx) ∧
    (goTrim (env.out cfgCommitPfxCmd) = "" → getCommitPfx env = defaultCommitPfx) ∧
    (env.ok cfgBranchPfxCmd = false → getBranchPfx env = defaultBranchPfx) ∧
    (goTrim (env.out cfgBranchPfxCmd) = "" → getBranchPfx env = defaultBranchPfx) ∧
    (env.ok cfgBaseBranchCmd = false → getBaseBranch env = defaultBaseBranch) ∧
    (goTrim (env.out cfgBaseBranchCmd) = "" → getBaseBranch env = defaultBaseBranch) ∧
    (env.ok cfgPatternsCmd = false → getPromptPatterns env = defaultPromptPatterns) ∧
    (goTrim (env.out cfgPatternsCmd) = "" →
      getPromptPatterns env = defaultPromptPatterns) ∧
    (∀ v : String, env.ok cfgPatternsCmd = true → goTrim (env.out cfgPatternsCmd) = v →
      v ≠ "" → ((goSplitCh v ',').map goTrim).filter (fun q => q ≠ "") ≠ [] →
      getPromptPatterns env = ((goSplitCh v ',').map goTrim).filter (fun q => q ≠ "")) ∧
    (∀ b : String, env.ok cfgBranchPfxCmd = true → goTrim (env.out cfgBranchPfxCmd) = b →
      b ≠ "" → ∀ shortSHA, promptBranchName env shortSHA = b ++ "/" ++ shortSHA) ∧
    (∀ p : String, env.ok cfgCommitPfxCmd = true → goTrim (env.out cfgCommitPfxCmd) = p →
      p ≠ "" → ∀ info : CommitInfo, info.isMixed = false → ∀ shortSHA,
        extractionMsg env info shortSHA = "[" ++ p ++ "] " ++ info.message) ∧
    (∀ bb : String, env.ok cfgBaseBranchCmd = true →
      goTrim (env.out cfgBaseBranchCmd) = bb → bb ≠ "" → getBaseBranch env = bb) ∧
    (∀ v : String, env.ok cfgPatternsCmd = true → goTrim (env.out cfgPatternsCmd) = v →
      v ≠ "" → ((goSplitCh v ',').map goTrim).filter (fun q => q ≠ "") ≠ [] →
      ∀ path, isPromptFile env path =
        (((goSplitCh v ',').map goTrim).filter (fun q => q ≠ "")).any
          (fun pattern => goHasPfx path pattern)) := by
  refine ⟨?_, ?_, ?_, ?_, ?_, ?_, ?_, ?_, ?_, ?_, ?_, ?_, ?_⟩
  · intro h
    simp [getCommitPfx, runGit, h]
  · intro h
    by_cases hok : env.ok cfgCommitPfxCmd <;> simp [getCommitPfx, runGit, h, hok]
  · intro h
    simp [getBranchPfx, runGit, h]
  · intro h
    by_cases hok : env.ok cfgBranchPfxCmd <;> simp [getBranchPfx, runGit, h, hok]
  · intro h
    simp [getBaseBranch, runGit, h]
  · intro h
    by_cases hok : env.ok cfgBaseBranchCmd <;> simp [getBaseBranch, runGit, h, hok]
  · intro h
    simp [getPromptPatterns, runGit, h]
  · intro h
    simp [getPromptPatterns, runGit, h]
  · intro v hok hval hne hres
    exact getPromptPatterns_custom env v hok hval hne hres
  · intro b hok hb hne shortSHA
    simp [promptBranchName, getBranchPfx, runGit, hok, hb, hne]
  · intro p hok hp hne info hmix shortSHA
    simp [extractionMsg, hmix, getCommitPfx, runGit, hok, hp, hne]
  · intro bb hok hbb hne
    simp [getBaseBranch, runGit, hok, hbb, hne]
  · intro v hok hval hne hres path
    unfold isPromptFile
    rw [getPromptPatterns_custom env v hok hval hne hres]

/-- Concrete environment with all four keys configured: commit prefix `cp`,
branch prefix `bp`, base branch `dev`, and a patterns value with surrounding
whitespace and an empty entry. -/
def envCustom : GitEnv where
  ok := fun _ => true
  out := fun c =>
    if c = cfgCommitPfxCmd then "cp"
    else if c = cfgBranchPfxCmd then "bp"
    else if c = cfgBaseBranchCmd then "dev"
    else if c = cfgPatternsCmd then " a/ ,, b/ "
    else ""

/-- Concrete environment with no key configured: every configuration read
fails. -/
def envAbsent : GitEnv where
  ok := fun _ => false
  out := fun _ => ""

theorem config_defaults_overrides_witness :
    getCommitPfx envAbsent = defaultCommitPfx ∧
    getPromptPatterns envAbsent = defaultPromptPatterns ∧
    getPromptPatterns envCustom = ["a/", "b/"] ∧
    promptBranchName envCustom "abc1234" = "bp/abc1234" ∧
    getBaseBranch envCustom = "dev" ∧
    isPromptFile envCustom "a/x.md" = true := by
  have hd := config_defaults_overrides envAbsent
  have hc := config_defaults_overrides envCustom
  refine ⟨hd.1 rfl, hd.2.2.2.2.2.2.1 rfl, ?_, ?_, ?_, ?_⟩
  · exact (hc.2.2.2.2.2.2.2.2.1 "a/ ,, b/" rfl (by decide) (by decide)
      (by decide)).trans (by decide)
  · exact hc.2.2.2.2.2.2.2.2.2.1 "bp" rfl (by decide) (by decide) "abc1234"
  · exact hc.2.2.2.2.2.2.2.2.2.2.2.1 "dev" rfl (by decide) (by decide)
  · exact (hc.2.2.2.2.2.2.2.2.2.2.2.2 "a/ ,, b/" rfl (by decide) (by decide)
      (by decide) "a/x.md").trans (by decide)

end Prrompt
